import Mathlib

/-!
Shallow embedding of the core data-transformation logic of the timeline
application (`src/App.jsx` and its unnamed variants): the relative-importance
normalizer `calculateRelativeImportance`, the zoom-threshold filter
`visibleEvents`, and the sparse layout builder `layoutItems`.

JavaScript's `Array.prototype.sort` is stable (ES2019); we model it with
`List.insertionSort`, which inserts each element before the first element it
compares `≤` to and therefore realises the same stable sort.  Calendar dates
are modelled as explicit year/month/day triples; comparing the numeric key
`year * 10000 + month * 100 + day` agrees with comparing JavaScript `Date`
values for valid dates, and `getFullYear` is the `year` component.
-/

/-- A calendar date, as parsed from the event's `date` string. -/
structure CalDate where
  year : Int
  month : Nat
  day : Nat
deriving DecidableEq, Repr

/-- An event record.  `absoluteImportance` is `none` when the field is absent
(the source reads it as `(e.absoluteImportance || 0)`), and
`relativeImportance = 0` models the field being unset (the source reads it as
`(e.relativeImportance || 1)`); the normalizer always overwrites it with a
value in `[1,10]`. -/
structure Event where
  id : Nat
  date : CalDate
  title : String
  description : String
  imageUrl : String
  absoluteImportance : Option Int
  relativeImportance : Nat
deriving DecidableEq, Repr

/-- The sort key of `(a, b) => (a.absoluteImportance || 0) - (b.absoluteImportance || 0)`. -/
def impKey (e : Event) : Int := e.absoluteImportance.getD 0

/-- The sort key of `(a, b) => new Date(a.date) - new Date(b.date)`:
numeric comparison of this key coincides with chronological comparison of
valid dates. -/
def dateKey (e : Event) : Int := e.date.year * 10000 + (e.date.month * 100 + e.date.day)

/-- Comparator order used by the importance sort. -/
def impLe (a b : Event) : Prop := impKey a ≤ impKey b

/-- Comparator order used by the chronological sort. -/
def dateLe (a b : Event) : Prop := dateKey a ≤ dateKey b

instance : DecidableRel impLe := fun a b => inferInstanceAs (Decidable (impKey a ≤ impKey b))

instance : DecidableRel dateLe := fun a b => inferInstanceAs (Decidable (dateKey a ≤ dateKey b))

instance : IsTotal Event impLe := ⟨fun a b => Int.le_total (impKey a) (impKey b)⟩

instance : IsTrans Event impLe := ⟨fun _ _ _ hab hbc => Int.le_trans hab hbc⟩

instance : IsTotal Event dateLe := ⟨fun a b => Int.le_total (dateKey a) (dateKey b)⟩

instance : IsTrans Event dateLe := ⟨fun _ _ _ hab hbc => Int.le_trans hab hbc⟩

/-- `Math.min(10, Math.ceil(((idx + 1) / total) * 10))`, with the ceiling of
the exact rational division written as Nat ceiling division. -/
def tierOf (idx total : Nat) : Nat := min 10 ((10 * (idx + 1) + (total - 1)) / total)

/-- The `sorted.map((evt, idx) => ({ ...evt, relativeImportance: level }))`
pass, carrying the running index explicitly. -/
def assignTiers (total : Nat) : Nat → List Event → List Event
  | _, [] => []
  | idx, e :: rest =>
    { e with relativeImportance := tierOf idx total } :: assignTiers total (idx + 1) rest

/-- `calculateRelativeImportance` (App.jsx:160-168, identical in every variant):
stable-sort ascending by `absoluteImportance || 0`, assign each position its
decile tier, then re-sort ascending by date. -/
def calculateRelativeImportance (rawEvents : List Event) : List Event :=
  if rawEvents.length = 0 then []
  else
    let sorted := List.insertionSort impLe rawEvents
    let total := sorted.length
    List.insertionSort dateLe (assignTiers total 0 sorted)

/-- The zoom filter `events.filter(e => (e.relativeImportance || 1) >= (11 - zoomLevel))`
(App.jsx:354-356; the variant at 832-834 applies the same predicate to its raw
importance field). -/
def visibleEvents (events : List Event) (zoomLevel : Nat) : List Event :=
  events.filter fun e =>
    decide (11 - zoomLevel ≤ if e.relativeImportance = 0 then 1 else e.relativeImportance)

/-- One entry of the layout builder's output: a synthetic year marker or a
wrapped event (render-key strings are omitted). -/
inductive RenderItem where
  | marker (year : Int)
  | event (data : Event)
deriving DecidableEq, Repr

/-- `for (let y = start; y < stop; y += step)` collecting `y`; `fuel` bounds
the iteration count (any `fuel ≥ stop - start` is enough when `step ≥ 1`). -/
def markerLoop (stop step : Int) : Int → Nat → List Int
  | _, 0 => []
  | y, fuel + 1 => if y < stop then y :: markerLoop stop step (y + step) fuel else []

/-- The marker years emitted between `lastYear` and `year` (App.jsx:842-844):
`step = (year - lastYear) > 50 ? 25 : 5`, then every `y` from
`lastYear + step` below `year` in increments of `step`. -/
def stepMarkers (lastYear year : Int) : List Int :=
  let step : Int := if year - lastYear > 50 then 25 else 5
  markerLoop year step (lastYear + step) (year - lastYear).toNat

/-- The body of the `visibleEvents.forEach` loop of `layoutItems`
(App.jsx:836-850), with the mutable `lastYear` threaded through. -/
def layoutGo : Option Int → List Event → List RenderItem
  | _, [] => []
  | lastYear, e :: rest =>
    let year := e.date.year
    (match lastYear with
     | some ly => if ly < year then (stepMarkers ly year).map RenderItem.marker else []
     | none => []) ++ (RenderItem.event e :: layoutGo (some year) rest)

/-- `layoutItems` (App.jsx:836-850): interleave visible events with synthetic
year markers filling the gaps. -/
def layoutItems (es : List Event) : List RenderItem := layoutGo none es

/-- The years of the marker items of a render sequence, in order. -/
def markerYearsOf (items : List RenderItem) : List Int :=
  items.filterMap fun it =>
    match it with
    | .marker y => some y
    | .event _ => none

/-- Whether a render item wraps an event (as opposed to being a marker). -/
def RenderItem.isEvent : RenderItem → Bool
  | .event _ => true
  | .marker _ => false

/-- Whether a render sequence consists of event items only. -/
def eventsOnly (items : List RenderItem) : Prop :=
  ∀ it ∈ items, it.isEvent = true

instance : DecidablePred eventsOnly := fun _ => List.decidableBAll _ _

/-- The fields of an event other than the derived `relativeImportance`. -/
def frame (e : Event) : Nat × CalDate × String × String × String × Option Int :=
  (e.id, e.date, e.title, e.description, e.imageUrl, e.absoluteImportance)

/-- A sample event dated January 1 of year `y`. -/
def sampleEvent (i : Nat) (y : Int) (imp : Option Int) (tier : Nat) : Event :=
  { id := i, date := ⟨y, 1, 1⟩, title := "", description := "", imageUrl := "",
    absoluteImportance := imp, relativeImportance := tier }

/-- The ten-event end-to-end scenario: `rawImportance` 10,20,…,100 with dates
2000-01-01 through 2009-01-01. -/
def tenEvents : List Event :=
  (List.range 10).map fun i => sampleEvent i (2000 + i) (some ((i + 1) * 10 : Nat)) 0

/-- Two events with tied `absoluteImportance` whose date order is the reverse
of their input order. -/
def tieLate : Event :=
  { id := 1, date := ⟨2000, 1, 2⟩, title := "", description := "", imageUrl := "",
    absoluteImportance := some 50, relativeImportance := 0 }

/-- See `tieLate`. -/
def tieEarly : Event :=
  { id := 2, date := ⟨2000, 1, 1⟩, title := "", description := "", imageUrl := "",
    absoluteImportance := some 50, relativeImportance := 0 }

/-! ### Helper lemmas about the tier formula and the assignment pass -/

theorem tierOf_le_ten (i t : Nat) : tierOf i t ≤ 10 := min_le_left _ _

theorem one_le_tierOf (i t : Nat) (ht : 0 < t) : 1 ≤ tierOf i t := by
  refine le_min (by norm_num) ?_
  rw [Nat.le_div_iff_mul_le ht]
  omega

theorem tierOf_mono (t : Nat) {i j : Nat} (h : i ≤ j) : tierOf i t ≤ tierOf j t :=
  min_le_min le_rfl (Nat.div_le_div_right (by omega))

theorem tierOf_last (n : Nat) (hn : 0 < n) : tierOf (n - 1) n = 10 := by
  unfold tierOf
  have h1 : 10 * (n - 1 + 1) + (n - 1) = (n - 1) + n * 10 := by omega
  rw [h1, Nat.add_mul_div_left _ _ hn, Nat.div_eq_of_lt (by omega)]
  rfl

theorem assignTiers_length (t k : Nat) (l : List Event) :
    (assignTiers t k l).length = l.length := by
  induction l generalizing k with
  | nil => rfl
  | cons e rest ih => simp [assignTiers, ih]

theorem assignTiers_getElem (t : Nat) :
    ∀ (k : Nat) (l : List Event) (i : Nat) (h : i < l.length)
      (h2 : i < (assignTiers t k l).length),
      (assignTiers t k l)[i] = { l[i] with relativeImportance := tierOf (k + i) t } := by
  intro k l
  induction l generalizing k with
  | nil => intro i h _; exact absurd h (by simp)
  | cons e rest ih =>
    intro i h h2
    cases i with
    | zero => simp [assignTiers]
    | succ j =>
      have hj : j < rest.length := by simpa using Nat.lt_of_succ_lt_succ h
      have hj2 : j < (assignTiers t (k + 1) rest).length := by
        rw [assignTiers_length]; exact hj
      simp only [assignTiers, List.getElem_cons_succ]
      rw [ih (k + 1) j hj hj2]
      have hidx : k + 1 + j = k + (j + 1) := by omega
      rw [hidx]

theorem assignTiers_map_impKey (t k : Nat) (l : List Event) :
    (assignTiers t k l).map impKey = l.map impKey := by
  induction l generalizing k with
  | nil => rfl
  | cons e rest ih => simp [assignTiers, ih, impKey]

theorem assignTiers_map_frame (t k : Nat) (l : List Event) :
    (assignTiers t k l).map frame = l.map frame := by
  induction l generalizing k with
  | nil => rfl
  | cons e rest ih => simp [assignTiers, ih, frame]

theorem assignTiers_self (t : Nat) :
    ∀ (k : Nat) (l : List Event),
      (∀ (i : Nat) (h : i < l.length), l[i].relativeImportance = tierOf (k + i) t) →
      assignTiers t k l = l := by
  intro k l
  induction l generalizing k with
  | nil => intro _; rfl
  | cons e rest ih =>
    intro hall
    have h0 : e.relativeImportance = tierOf k t := by
      have := hall 0 (by simp)
      simpa using this
    have htail : ∀ (i : Nat) (h : i < rest.length),
        rest[i].relativeImportance = tierOf (k + 1 + i) t := by
      intro i h
      have := hall (i + 1) (by simpa using Nat.succ_lt_succ h)
      simpa [Nat.add_assoc, Nat.add_comm 1 i] using this
    simp only [assignTiers, ih (k + 1) htail, List.cons.injEq, and_true]
    rw [← h0]

/-! ### Characterisation of the normalizer's output -/

theorem calc_nil : calculateRelativeImportance [] = [] := rfl

theorem calc_eq (es : List Event) (h : es.length ≠ 0) :
    calculateRelativeImportance es =
      List.insertionSort dateLe
        (assignTiers (List.insertionSort impLe es).length 0 (List.insertionSort impLe es)) := by
  simp only [calculateRelativeImportance, h, if_false]

theorem calc_length (es : List Event) :
    (calculateRelativeImportance es).length = es.length := by
  by_cases h : es.length = 0
  · rw [List.length_eq_zero.mp h, calc_nil]
  · rw [calc_eq es h, List.length_insertionSort, assignTiers_length, List.length_insertionSort]

theorem mem_calc (es : List Event) (hn : es.length ≠ 0) (a : Event) :
    a ∈ calculateRelativeImportance es ↔
      ∃ (i : Nat) (h : i < (List.insertionSort impLe es).length),
        a = { (List.insertionSort impLe es)[i] with
                relativeImportance := tierOf i (List.insertionSort impLe es).length } := by
  rw [calc_eq es hn, List.mem_insertionSort, List.mem_iff_getElem]
  constructor
  · rintro ⟨i, h, hEq⟩
    have h2 : i < (List.insertionSort impLe es).length := by
      rwa [assignTiers_length] at h
    refine ⟨i, h2, ?_⟩
    rw [← hEq, assignTiers_getElem _ 0 _ i h2 h, Nat.zero_add]
  · rintro ⟨i, h, hEq⟩
    have h2 : i < (assignTiers (List.insertionSort impLe es).length 0
        (List.insertionSort impLe es)).length := by
      rwa [assignTiers_length]
    refine ⟨i, h2, ?_⟩
    rw [assignTiers_getElem _ 0 _ i h h2, Nat.zero_add, hEq]

theorem impKey_set_tier (e : Event) (t : Nat) :
    impKey { e with relativeImportance := t } = impKey e := rfl

theorem sorted_getElem_impKey (es : List Event) {i j : Nat}
    (hi : i < (List.insertionSort impLe es).length)
    (hj : j < (List.insertionSort impLe es).length) (hij : i < j) :
    impKey (List.insertionSort impLe es)[i] ≤ impKey (List.insertionSort impLe es)[j] := by
  have hs : List.Sorted impLe (List.insertionSort impLe es) :=
    List.sorted_insertionSort impLe es
  exact (List.pairwise_iff_getElem.mp hs) i j hi hj hij

/-- C4: for any two events of the same normalization run, a strictly larger
raw importance (missing treated as 0) never receives a strictly smaller
display tier. -/
theorem c4_tier_monotonicity (es : List Event) (a b : Event)
    (ha : a ∈ calculateRelativeImportance es) (hb : b ∈ calculateRelativeImportance es)
    (hlt : impKey b < impKey a) :
    b.relativeImportance ≤ a.relativeImportance := by
  by_cases hn : es.length = 0
  · rw [List.length_eq_zero.mp hn, calc_nil] at ha
    exact absurd ha (List.not_mem_nil a)
  · obtain ⟨ia, hia, hae⟩ := (mem_calc es hn a).mp ha
    obtain ⟨ib, hib, hbe⟩ := (mem_calc es hn b).mp hb
    have hkeya : impKey a = impKey (List.insertionSort impLe es)[ia] := by
      rw [hae, impKey_set_tier]
    have hkeyb : impKey b = impKey (List.insertionSort impLe es)[ib] := by
      rw [hbe, impKey_set_tier]
    have hle : ib ≤ ia := by
      by_contra hcon
      have : impKey (List.insertionSort impLe es)[ia] ≤
          impKey (List.insertionSort impLe es)[ib] :=
        sorted_getElem_impKey es hia hib (by omega)
      rw [← hkeya, ← hkeyb] at this
      omega
    have hta : a.relativeImportance = tierOf ia (List.insertionSort impLe es).length := by
      rw [hae]
    have htb : b.relativeImportance = tierOf ib (List.insertionSort impLe es).length := by
      rw [hbe]
    rw [hta, htb]
    exact tierOf_mono _ hle

theorem c4_tier_monotonicity_witness :
    (sampleEvent 2 2000 (some 10) 5).relativeImportance ≤
      (sampleEvent 1 2001 (some 20) 10).relativeImportance :=
  c4_tier_monotonicity
    [sampleEvent 1 2001 (some 20) 0, sampleEvent 2 2000 (some 10) 0]
    (sampleEvent 1 2001 (some 20) 10) (sampleEvent 2 2000 (some 10) 5)
    (by decide) (by decide) (by decide)

/-- C5: every event returned by the normalizer carries a display tier in
`[1, 10]`, for arbitrary input (missing or invalid raw importance included). -/
theorem c5_tier_bounds (es : List Event) (e : Event)
    (he : e ∈ calculateRelativeImportance es) :
    1 ≤ e.relativeImportance ∧ e.relativeImportance ≤ 10 := by
  by_cases hn : es.length = 0
  · rw [List.length_eq_zero.mp hn, calc_nil] at he
    exact absurd he (List.not_mem_nil e)
  · obtain ⟨i, hi, hee⟩ := (mem_calc es hn e).mp he
    have hpos : 0 < (List.insertionSort impLe es).length := by omega
    have ht : e.relativeImportance = tierOf i (List.insertionSort impLe es).length := by
      rw [hee]
    rw [ht]
    exact ⟨one_le_tierOf _ _ hpos, tierOf_le_ten _ _⟩

theorem c5_tier_bounds_witness :
    1 ≤ (sampleEvent 0 2000 none 10).relativeImportance ∧
      (sampleEvent 0 2000 none 10).relativeImportance ≤ 10 :=
  c5_tier_bounds [sampleEvent 0 2000 none 0] (sampleEvent 0 2000 none 10) (by decide)

/-- C6: the normalizer's output is already sorted chronologically — re-sorting
it by date leaves it unchanged. -/
theorem c6_chronological_output (es : List Event) :
    List.insertionSort dateLe (calculateRelativeImportance es) =
      calculateRelativeImportance es := by
  by_cases hn : es.length = 0
  · rw [List.length_eq_zero.mp hn, calc_nil]
    rfl
  · rw [calc_eq es hn]
    exact (List.sorted_insertionSort dateLe _).insertionSort_eq

/-- C9: the normalizer preserves length and is a permutation that changes no
field other than the derived `relativeImportance`. -/
theorem c9_frame_preservation (es : List Event) :
    (calculateRelativeImportance es).length = es.length ∧
      ((calculateRelativeImportance es).map frame).Perm (es.map frame) := by
  refine ⟨calc_length es, ?_⟩
  by_cases hn : es.length = 0
  · rw [List.length_eq_zero.mp hn, calc_nil]
  · rw [calc_eq es hn]
    have h1 := (List.perm_insertionSort dateLe
      (assignTiers (List.insertionSort impLe es).length 0
        (List.insertionSort impLe es))).map frame
    rw [assignTiers_map_frame] at h1
    exact h1.trans ((List.perm_insertionSort impLe es).map frame)

/-- C10: on non-empty input the normalizer awards tier 10 to an event of
maximal raw importance, so the minimum-detail zoom level (`zoomLevel = 1`)
never shows an empty timeline. -/
theorem c10_top_tier_nonempty (es : List Event) (h : es ≠ []) :
    (∃ e ∈ calculateRelativeImportance es, e.relativeImportance = 10 ∧
        ∀ b ∈ calculateRelativeImportance es, impKey b ≤ impKey e) ∧
      visibleEvents (calculateRelativeImportance es) 1 ≠ [] := by
  have hn : es.length ≠ 0 := fun hc => h (List.length_eq_zero.mp hc)
  have hpos : 0 < (List.insertionSort impLe es).length := by
    rw [List.length_insertionSort]
    omega
  have hlast : (List.insertionSort impLe es).length - 1 <
      (List.insertionSort impLe es).length := by omega
  have hmem : { (List.insertionSort impLe es)[(List.insertionSort impLe es).length - 1] with
        relativeImportance := tierOf ((List.insertionSort impLe es).length - 1)
          (List.insertionSort impLe es).length } ∈ calculateRelativeImportance es :=
    (mem_calc es hn _).mpr ⟨(List.insertionSort impLe es).length - 1, hlast, rfl⟩
  have htier : tierOf ((List.insertionSort impLe es).length - 1)
      (List.insertionSort impLe es).length = 10 := tierOf_last _ hpos
  have hmax : ∀ b ∈ calculateRelativeImportance es,
      impKey b ≤ impKey (List.insertionSort impLe es)[(List.insertionSort impLe es).length - 1] := by
    intro b hb
    obtain ⟨ib, hib, hbe⟩ := (mem_calc es hn b).mp hb
    have hkeyb : impKey b = impKey (List.insertionSort impLe es)[ib] := by
      rw [hbe, impKey_set_tier]
    rcases Nat.lt_or_ge ib ((List.insertionSort impLe es).length - 1) with hlt | hge
    · rw [hkeyb]
      exact sorted_getElem_impKey es hib hlast hlt
    · have heq : ib = (List.insertionSort impLe es).length - 1 := by omega
      subst heq
      rw [hkeyb]
  refine ⟨⟨_, hmem, by rw [impKey_set_tier] at hmax ⊢; exact ⟨htier, hmax⟩⟩, ?_⟩
  have hfil : { (List.insertionSort impLe es)[(List.insertionSort impLe es).length - 1] with
        relativeImportance := tierOf ((List.insertionSort impLe es).length - 1)
          (List.insertionSort impLe es).length } ∈
      visibleEvents (calculateRelativeImportance es) 1 := by
    rw [visibleEvents, List.mem_filter]
    refine ⟨hmem, ?_⟩
    show decide (11 - 1 ≤ if tierOf _ _ = 0 then 1 else tierOf _ _) = true
    rw [htier]
    decide
  exact List.ne_nil_of_mem hfil

theorem c10_top_tier_nonempty_witness :
    (∃ e ∈ calculateRelativeImportance [sampleEvent 0 2000 none 0],
        e.relativeImportance = 10 ∧
        ∀ b ∈ calculateRelativeImportance [sampleEvent 0 2000 none 0], impKey b ≤ impKey e) ∧
      visibleEvents (calculateRelativeImportance [sampleEvent 0 2000 none 0]) 1 ≠ [] :=
  c10_top_tier_nonempty [sampleEvent 0 2000 none 0] (by decide)

/-- C7 counterexample: an event whose `relativeImportance` is unset (0) is
kept by the zoom filter at `zoomLevel = 10` even though its display tier does
not satisfy `displayTier ≥ 11 - zoomLevel`, because the source applies the
default `(e.relativeImportance || 1)`. -/
theorem c7_zoom_filter_counterexample :
    visibleEvents [sampleEvent 0 2000 none 0] 10 ≠
      List.filter (fun e => decide (11 - 10 ≤ e.relativeImportance))
        [sampleEvent 0 2000 none 0] := by
  decide

/-- C7 (amended): for event lists whose display tiers all lie in `[1, 10]`
(as the normalizer guarantees), the zoom filter keeps exactly the events with
`displayTier ≥ 11 - zoomLevel`; at `zoomLevel = 10` it keeps every event and
at `zoomLevel = 1` exactly the tier-10 events. -/
theorem c7_zoom_filter_amended (events : List Event) (zoomLevel : Nat)
    (ht : ∀ e ∈ events, 1 ≤ e.relativeImportance ∧ e.relativeImportance ≤ 10) :
    visibleEvents events zoomLevel =
        List.filter (fun e => decide (11 - zoomLevel ≤ e.relativeImportance)) events ∧
      visibleEvents events 10 = events ∧
      visibleEvents events 1 =
        List.filter (fun e => decide (e.relativeImportance = 10)) events := by
  refine ⟨?_, ?_, ?_⟩
  · rw [visibleEvents]
    refine List.filter_congr ?_
    intro e he
    rw [decide_eq_decide]
    have h1 := (ht e he).1
    rw [if_neg (by omega)]
  · rw [visibleEvents]
    rw [List.filter_eq_self]
    intro e he
    have h1 := (ht e he).1
    rw [if_neg (by omega), decide_eq_true_eq]
    omega
  · rw [visibleEvents]
    refine List.filter_congr ?_
    intro e he
    rw [decide_eq_decide]
    have h1 := (ht e he).1
    have h2 := (ht e he).2
    rw [if_neg (by omega)]
    omega

theorem c7_zoom_filter_amended_witness :
    (visibleEvents [sampleEvent 0 2000 none 5] 3 =
        List.filter (fun e => decide (11 - 3 ≤ e.relativeImportance))
          [sampleEvent 0 2000 none 5] ∧
      visibleEvents [sampleEvent 0 2000 none 5] 10 = [sampleEvent 0 2000 none 5] ∧
      visibleEvents [sampleEvent 0 2000 none 5] 1 =
        List.filter (fun e => decide (e.relativeImportance = 10))
          [sampleEvent 0 2000 none 5]) :=
  c7_zoom_filter_amended [sampleEvent 0 2000 none 5] 3 (by decide)

/-- C8: the layout builder emits no markers for zero or one events, and none
between two consecutive events one year apart; such outputs consist of event
items only. -/
theorem c8_no_markers (e1 e2 : Event) (hgap : e2.date.year = e1.date.year + 1) :
    layoutItems [] = [] ∧
      (∀ e : Event, layoutItems [e] = [RenderItem.event e]) ∧
      layoutItems [e1, e2] = [RenderItem.event e1, RenderItem.event e2] ∧
      (∀ e : Event, eventsOnly (layoutItems [e])) ∧
      eventsOnly (layoutItems [e1, e2]) := by
  have hone : ∀ e : Event, layoutItems [e] = [RenderItem.event e] := by
    intro e
    simp [layoutItems, layoutGo]
  have hnomark : stepMarkers e1.date.year e2.date.year = [] := by
    unfold stepMarkers
    rw [if_neg (by omega)]
    have ht : (e2.date.year - e1.date.year).toNat = 1 := by omega
    rw [ht]
    unfold markerLoop
    rw [if_neg (by omega)]
  have htwo : layoutItems [e1, e2] = [RenderItem.event e1, RenderItem.event e2] := by
    simp only [layoutItems, layoutGo]
    rw [if_pos (by omega), hnomark]
    rfl
  refine ⟨rfl, hone, htwo, ?_, ?_⟩
  · intro e
    rw [hone e]
    intro it hit
    rw [List.mem_singleton.mp hit]
    rfl
  · rw [htwo]
    intro it hit
    rcases List.mem_cons.mp hit with h | h
    · rw [h]; rfl
    · rw [List.mem_singleton.mp h]; rfl

theorem c8_no_markers_witness :
    layoutItems [] = [] ∧
      (∀ e : Event, layoutItems [e] = [RenderItem.event e]) ∧
      layoutItems [sampleEvent 0 2000 none 0, sampleEvent 1 2001 none 0] =
        [RenderItem.event (sampleEvent 0 2000 none 0),
         RenderItem.event (sampleEvent 1 2001 none 0)] ∧
      (∀ e : Event, eventsOnly (layoutItems [e])) ∧
      eventsOnly (layoutItems [sampleEvent 0 2000 none 0, sampleEvent 1 2001 none 0]) :=
  c8_no_markers (sampleEvent 0 2000 none 0) (sampleEvent 1 2001 none 0) (by decide)

/-! ### The marker loop as an arithmetic progression -/

theorem markerLoop_mem (stop step z : Int) (hstep : 1 ≤ step) :
    ∀ (fuel : Nat) (y : Int), (stop - y).toNat ≤ fuel →
      (z ∈ markerLoop stop step y fuel ↔ ∃ k : Nat, z = y + step * k ∧ z < stop) := by
  intro fuel
  induction fuel with
  | zero =>
    intro y hf
    constructor
    · intro hz
      exact absurd hz (List.not_mem_nil z)
    · rintro ⟨k, hzk, hzlt⟩
      have hk : (0 : ℤ) ≤ step * k := mul_nonneg (by omega) (Int.natCast_nonneg k)
      omega
  | succ fuel ih =>
    intro y hf
    have hunf : markerLoop stop step y (fuel + 1) =
        if y < stop then y :: markerLoop stop step (y + step) fuel else [] := rfl
    by_cases hy : y < stop
    · rw [hunf, if_pos hy, List.mem_cons, ih (y + step) (by omega)]
      constructor
      · rintro (rfl | ⟨k, hzk, hzlt⟩)
        · exact ⟨0, by simp, hy⟩
        · refine ⟨k + 1, ?_, hzlt⟩
          rw [hzk]
          push_cast
          ring
      · rintro ⟨k, hzk, hzlt⟩
        cases k with
        | zero =>
          left
          simpa using hzk
        | succ k =>
          right
          refine ⟨k, ?_, hzlt⟩
          rw [hzk]
          push_cast
          ring
    · rw [hunf, if_neg hy]
      constructor
      · intro hz
        exact absurd hz (List.not_mem_nil z)
      · rintro ⟨k, hzk, hzlt⟩
        have hk : (0 : ℤ) ≤ step * k := mul_nonneg (by omega) (Int.natCast_nonneg k)
        omega

theorem stepMarkers_mem (ly y z : Int) (h : ly < y) :
    z ∈ stepMarkers ly y ↔
      ∃ k : Nat, z = ly + (if y - ly > 50 then (25 : ℤ) else 5) * (k + 1) ∧ z < y := by
  have hdef : stepMarkers ly y =
      markerLoop y (if y - ly > 50 then (25 : ℤ) else 5)
        (ly + (if y - ly > 50 then (25 : ℤ) else 5)) (y - ly).toNat := rfl
  have hstep : 1 ≤ (if y - ly > 50 then (25 : ℤ) else 5) := by split <;> omega
  have hfuel : (y - (ly + (if y - ly > 50 then (25 : ℤ) else 5))).toNat ≤ (y - ly).toNat := by
    omega
  rw [hdef, markerLoop_mem y _ z hstep ((y - ly).toNat) _ hfuel]
  constructor
  · rintro ⟨k, hzk, hzlt⟩
    refine ⟨k, ?_, hzlt⟩
    rw [hzk]
    ring
  · rintro ⟨k, hzk, hzlt⟩
    refine ⟨k, ?_, hzlt⟩
    rw [hzk]
    ring

theorem layoutGo_append (e : Event) (m : List Event) :
    ∀ (l : List Event) (ly : Option Int),
      layoutGo ly (l ++ e :: m) =
        layoutGo ly (l ++ [e]) ++ layoutGo (some e.date.year) m := by
  have hstep : ∀ (ly : Option Int) (a : Event) (t : List Event),
      layoutGo ly (a :: t) =
        (match ly with
         | some l =>
           if l < a.date.year then (stepMarkers l a.date.year).map RenderItem.marker else []
         | none => []) ++ (RenderItem.event a :: layoutGo (some a.date.year) t) :=
    fun _ _ _ => rfl
  intro l
  induction l with
  | nil =>
    intro ly
    rw [List.nil_append, List.nil_append, hstep, hstep]
    simp [List.append_assoc, layoutGo]
  | cons a rest ih =>
    intro ly
    rw [List.cons_append, List.cons_append, hstep, hstep, ih (some a.date.year)]
    simp [List.append_assoc]

/-- C1 counterexample: for events at years 1900 and 2020 the layout builder
emits the markers 1925, 1950, 1975, 2000 (step 25, threshold gap > 50), not
the claimed markers 1950 and 2000 (step 50, threshold gap > 100). -/
theorem c1_marker_steps_counterexample :
    markerYearsOf (layoutItems [sampleEvent 0 1900 none 0, sampleEvent 1 2020 none 0]) =
        [1925, 1950, 1975, 2000] ∧
      markerYearsOf (layoutItems [sampleEvent 0 1900 none 0, sampleEvent 1 2020 none 0]) ≠
        [1950, 2000] := by
  constructor
  · decide
  · decide

/-- C1 (amended): between consecutive visible events whose years satisfy
`lastYear < Y`, the layout builder chooses the step as 25 when
`Y - lastYear > 50` and 5 otherwise, and emits a marker for exactly the years
`lastYear + step`, `lastYear + 2·step`, … strictly below `Y`; in particular
years 1900 and 2020 yield exactly the markers 1925, 1950, 1975, 2000, and
years 1800 and 1850 yield exactly 1805, 1810, …, 1845. -/
theorem c1_marker_steps_amended (l m : List Event) (e1 e2 : Event)
    (hlt : e1.date.year < e2.date.year) :
    layoutItems (l ++ e1 :: e2 :: m) =
        layoutItems (l ++ [e1]) ++
          ((stepMarkers e1.date.year e2.date.year).map RenderItem.marker ++
            (RenderItem.event e2 :: layoutGo (some e2.date.year) m)) ∧
      (∀ z : Int, z ∈ stepMarkers e1.date.year e2.date.year ↔
        ∃ k : Nat, z = e1.date.year +
            (if e2.date.year - e1.date.year > 50 then (25 : ℤ) else 5) * (k + 1) ∧
          z < e2.date.year) ∧
      markerYearsOf (layoutItems [sampleEvent 0 1900 none 0, sampleEvent 1 2020 none 0]) =
        [1925, 1950, 1975, 2000] ∧
      markerYearsOf (layoutItems [sampleEvent 0 1800 none 0, sampleEvent 1 1850 none 0]) =
        [1805, 1810, 1815, 1820, 1825, 1830, 1835, 1840, 1845] := by
  refine ⟨?_, fun z => stepMarkers_mem _ _ z hlt, by decide, by decide⟩
  rw [layoutItems, layoutGo_append e1 (e2 :: m) l none]
  have htail : layoutGo (some e1.date.year) (e2 :: m) =
      (stepMarkers e1.date.year e2.date.year).map RenderItem.marker ++
        (RenderItem.event e2 :: layoutGo (some e2.date.year) m) := by
    have h1 : layoutGo (some e1.date.year) (e2 :: m) =
        (if e1.date.year < e2.date.year then
          (stepMarkers e1.date.year e2.date.year).map RenderItem.marker else []) ++
          (RenderItem.event e2 :: layoutGo (some e2.date.year) m) := rfl
    rw [h1, if_pos hlt]
  rw [htail, layoutItems]

theorem c1_marker_steps_amended_witness :
    (layoutItems ([] ++ sampleEvent 0 1800 none 0 :: sampleEvent 1 1850 none 0 :: []) =
        layoutItems ([] ++ [sampleEvent 0 1800 none 0]) ++
          ((stepMarkers (sampleEvent 0 1800 none 0).date.year
              (sampleEvent 1 1850 none 0).date.year).map RenderItem.marker ++
            (RenderItem.event (sampleEvent 1 1850 none 0) ::
              layoutGo (some (sampleEvent 1 1850 none 0).date.year) [])) ∧
      (∀ z : Int, z ∈ stepMarkers (sampleEvent 0 1800 none 0).date.year
          (sampleEvent 1 1850 none 0).date.year ↔
        ∃ k : Nat, z = (sampleEvent 0 1800 none 0).date.year +
            (if (sampleEvent 1 1850 none 0).date.year -
                (sampleEvent 0 1800 none 0).date.year > 50 then (25 : ℤ) else 5) * (k + 1) ∧
          z < (sampleEvent 1 1850 none 0).date.year) ∧
      markerYearsOf (layoutItems [sampleEvent 0 1900 none 0, sampleEvent 1 2020 none 0]) =
        [1925, 1950, 1975, 2000] ∧
      markerYearsOf (layoutItems [sampleEvent 0 1800 none 0, sampleEvent 1 1850 none 0]) =
        [1805, 1810, 1815, 1820, 1825, 1830, 1835, 1840, 1845]) :=
  c1_marker_steps_amended [] [] (sampleEvent 0 1800 none 0) (sampleEvent 1 1850 none 0)
    (by decide)

/-! ### Two sorted permutations with pairwise-distinct keys coincide -/

theorem sorted_impLe_of_map_eq {l1 l2 : List Event}
    (h : l1.map impKey = l2.map impKey) (hs : l1.Sorted impLe) : l2.Sorted impLe := by
  have h1 : (l1.map impKey).Pairwise (· ≤ ·) := List.pairwise_map.mpr hs
  rw [h] at h1
  show l2.Pairwise fun a b => impKey a ≤ impKey b
  exact List.pairwise_map.mp h1

theorem sorted_perm_eq_of_nodup_keys :
    ∀ (l1 l2 : List Event), l1.Perm l2 → l1.Sorted impLe → l2.Sorted impLe →
      (l1.map impKey).Nodup → l1 = l2 := by
  intro l1
  induction l1 with
  | nil =>
    intro l2 hp _ _ _
    exact hp.nil_eq
  | cons a t1 ih =>
    intro l2 hp hs1 hs2 hnd
    cases l2 with
    | nil => exact absurd hp.eq_nil (by simp)
    | cons b t2 =>
      have hs1' := List.sorted_cons.mp hs1
      have hs2' := List.sorted_cons.mp hs2
      rw [List.map_cons] at hnd
      have hnd' := List.nodup_cons.mp hnd
      have hab : a = b := by
        by_contra hne
        have hbmem : b ∈ a :: t1 := hp.symm.subset (List.mem_cons_self b t2)
        have hamem : a ∈ b :: t2 := hp.subset (List.mem_cons_self a t1)
        have hbt1 : b ∈ t1 := by
          rcases List.mem_cons.mp hbmem with h | h
          · exact absurd h.symm hne
          · exact h
        have hat2 : a ∈ t2 := by
          rcases List.mem_cons.mp hamem with h | h
          · exact absurd h hne
          · exact h
        have h1 : impKey a ≤ impKey b := hs1'.1 b hbt1
        have h2 : impKey b ≤ impKey a := hs2'.1 a hat2
        have heq : impKey b = impKey a := le_antisymm h2 h1
        have hin : impKey a ∈ t1.map impKey := heq ▸ List.mem_map_of_mem impKey hbt1
        exact hnd'.1 hin
      subst hab
      have hp' : t1.Perm t2 := hp.cons_inv
      rw [ih t2 hp' hs1'.2 hs2'.2 hnd'.2]

/-- C2 counterexample: two events with tied raw importance whose date order
reverses their input order swap display tiers when the normalizer is run a
second time on its own output. -/
theorem c2_idempotence_counterexample :
    (calculateRelativeImportance (calculateRelativeImportance [tieLate, tieEarly])).map
        (fun e => (e.id, e.relativeImportance)) ≠
      (calculateRelativeImportance [tieLate, tieEarly]).map
        (fun e => (e.id, e.relativeImportance)) := by
  decide

/-- C2 (amended): when the events' raw importance values are pairwise
distinct, re-running the normalizer on its own output reproduces it exactly
(in particular every event keeps its display tier). -/
theorem c2_idempotence_amended (es : List Event) (hnd : (es.map impKey).Nodup) :
    calculateRelativeImportance (calculateRelativeImportance es) =
      calculateRelativeImportance es := by
  by_cases hn : es.length = 0
  · rw [List.length_eq_zero.mp hn]
    rfl
  · have hn2 : (calculateRelativeImportance es).length ≠ 0 := by
      rw [calc_length]
      exact hn
    rw [calc_eq (calculateRelativeImportance es) hn2]
    have hkey : List.insertionSort impLe (calculateRelativeImportance es) =
        assignTiers (List.insertionSort impLe es).length 0 (List.insertionSort impLe es) := by
      apply sorted_perm_eq_of_nodup_keys
      · refine (List.perm_insertionSort impLe _).trans ?_
        rw [calc_eq es hn]
        exact List.perm_insertionSort dateLe _
      · exact List.sorted_insertionSort impLe _
      · exact sorted_impLe_of_map_eq (assignTiers_map_impKey _ 0 _).symm
          (List.sorted_insertionSort impLe _)
      · have p : ((List.insertionSort impLe (calculateRelativeImportance es)).map
            impKey).Perm (es.map impKey) := by
          refine ((List.perm_insertionSort impLe _).map impKey).trans ?_
          rw [calc_eq es hn]
          refine ((List.perm_insertionSort dateLe _).map impKey).trans ?_
          rw [assignTiers_map_impKey]
          exact (List.perm_insertionSort impLe es).map impKey
        exact p.nodup_iff.mpr hnd
    rw [hkey, assignTiers_length]
    have hAA : assignTiers (List.insertionSort impLe es).length 0
        (assignTiers (List.insertionSort impLe es).length 0 (List.insertionSort impLe es)) =
        assignTiers (List.insertionSort impLe es).length 0 (List.insertionSort impLe es) := by
      apply assignTiers_self
      intro i h
      rw [assignTiers_getElem _ 0 _ i (by rwa [assignTiers_length] at h) h, Nat.zero_add]
    rw [hAA, ← calc_eq es hn]

theorem c2_idempotence_amended_witness :
    calculateRelativeImportance (calculateRelativeImportance
        [sampleEvent 1 2001 (some 20) 0, sampleEvent 2 2000 (some 10) 0]) =
      calculateRelativeImportance
        [sampleEvent 1 2001 (some 20) 0, sampleEvent 2 2000 (some 10) 0] :=
  c2_idempotence_amended
    [sampleEvent 1 2001 (some 20) 0, sampleEvent 2 2000 (some 10) 0] (by decide)

/-! ### The decile formula as an exact rational ceiling -/

theorem nat_ceil_div (a b : Nat) (hb : 0 < b) :
    ⌈(a : ℚ) / b⌉₊ = (a + b - 1) / b := by
  apply le_antisymm
  · rw [Nat.ceil_le, div_le_iff₀ (by positivity)]
    have hq := Nat.div_add_mod (a + b - 1) b
    have hr : (a + b - 1) % b < b := Nat.mod_lt _ hb
    have hnat : a ≤ ((a + b - 1) / b) * b := by
      rw [Nat.mul_comm]
      omega
    exact_mod_cast hnat
  · rw [Nat.div_le_iff_le_mul_add_pred hb]
    have hc : (a : ℚ) / b ≤ (⌈(a : ℚ) / b⌉₊ : ℚ) := Nat.le_ceil _
    rw [div_le_iff₀ (by positivity)] at hc
    have hnat : a ≤ ⌈(a : ℚ) / b⌉₊ * b := by exact_mod_cast hc
    rw [Nat.mul_comm] at hnat
    omega

theorem tierOf_eq_ceil (i n : Nat) (hn : 0 < n) :
    tierOf i n = min 10 ⌈(((i : ℚ) + 1) / n) * 10⌉₊ := by
  have h1 : (((i : ℚ) + 1) / n) * 10 = ((10 * (i + 1) : ℕ) : ℚ) / ((n : ℕ) : ℚ) := by
    push_cast
    ring
  rw [h1, nat_ceil_div _ n hn]
  unfold tierOf
  have h2 : 10 * (i + 1) + (n - 1) = 10 * (i + 1) + n - 1 := by omega
  rw [h2]

/-- C3: the normalizer assigns the event at zero-based position `i` of the
stable rawImportance-ascending sort of `n` events the display tier
`min(10, ceil(((i+1)/n)*10))`; in particular the ten-event scenario with raw
importance 10,20,…,100 receives tiers 1 through 10 in order. -/
theorem c3_decile_formula (es : List Event) (hne : es ≠ []) (i : Nat)
    (hi : i < (List.insertionSort impLe es).length)
    (hi2 : i < (assignTiers (List.insertionSort impLe es).length 0
      (List.insertionSort impLe es)).length) :
    ((assignTiers (List.insertionSort impLe es).length 0
        (List.insertionSort impLe es))[i]).relativeImportance =
      min 10 ⌈(((i : ℚ) + 1) / es.length) * 10⌉₊ ∧
    (calculateRelativeImportance tenEvents).map (fun e => e.relativeImportance) =
      [1, 2, 3, 4, 5, 6, 7, 8, 9, 10] := by
  constructor
  · rw [assignTiers_getElem _ 0 _ i hi hi2, Nat.zero_add]
    show tierOf i (List.insertionSort impLe es).length = _
    rw [List.length_insertionSort]
    have hn : 0 < es.length := List.length_pos.mpr hne
    exact tierOf_eq_ceil i es.length hn
  · decide

theorem c3_decile_formula_witness :
    ((assignTiers (List.insertionSort impLe tenEvents).length 0
        (List.insertionSort impLe tenEvents)).get ⟨0, by decide⟩).relativeImportance =
      min 10 ⌈(((0 : ℚ) + 1) / tenEvents.length) * 10⌉₊ ∧
    (calculateRelativeImportance tenEvents).map (fun e => e.relativeImportance) =
      [1, 2, 3, 4, 5, 6, 7, 8, 9, 10] :=
  c3_decile_formula tenEvents (by decide) 0 (by decide) (by decide)
